import Mathlib

/-!
Shallow embedding of `src/usage_report.py` (a Stack Overflow Enterprise usage
report script) and verification of its specification claims.

The aggregation core consists of `create_contributor_lists` (contributor index
builder), `create_tag_report` (tag aggregator), and the summary computations of
`create_usage_report`.  Python dictionaries keyed by strings are modelled as
association lists preserving insertion order (CPython dicts preserve insertion
order); Python exceptions that abort a computation are modelled by `Option`
(`none` = the invocation raised); Python `set` cardinality is modelled by
`List.dedup` length.
-/

namespace UsageReport

abbrev Tag := String

/-- A resolved user identifier: either a numeric `user_id` or the string
sentinel `"unknown"` assigned by `validate_user_id` for deleted users. -/
inductive UserId where
  | known (id : Nat)
  | unknown
deriving DecidableEq, Repr

/-- The `owner` sub-dictionary of a question/answer/comment record.  The
`user_id` key may be absent (deleted account). -/
structure Owner where
  user_id : Option Nat
deriving DecidableEq, Repr

/-- A comment record: the core reads only its owner. -/
structure Comment where
  owner : Option Owner
deriving DecidableEq, Repr

/-- A question record, with the fields read by the aggregation core.  The
`comments` key and the `owner` key may be absent (`none`). -/
structure Question where
  question_id : Nat
  tags : List Tag
  view_count : Nat
  up_vote_count : Nat
  down_vote_count : Nat
  answer_count : Nat
  is_answered : Bool
  comments : Option (List Comment)
  owner : Option Owner
deriving DecidableEq, Repr

/-- An answer record, with the fields read by the aggregation core. -/
structure Answer where
  answer_id : Nat
  question_id : Nat
  up_vote_count : Nat
  down_vote_count : Nat
  comments : Option (List Comment)
  owner : Option Owner
deriving DecidableEq, Repr

/-- A user record: the core reads only `badge_counts.bronze`. -/
structure User where
  badge_counts_bronze : Nat
deriving DecidableEq, Repr

/-- Embeds `validate_user_id` (usage_report.py:353-371): reads
`item['owner']['user_id']`; a `KeyError` at either level (absent `owner` key or
absent `user_id` key) is caught and replaced by the `"unknown"` sentinel. -/
def validate_user_id (owner : Option Owner) : UserId :=
  match owner with
  | some o =>
    match o.user_id with
    | some i => UserId.known i
    | none => UserId.unknown
  | none => UserId.unknown

/-- Embeds `add_user_to_list` (usage_report.py:300-313): appends `user_id` to the list
only when it is not already present. -/
def add_user_to_list (user_id : UserId) (user_list : List UserId) : List UserId :=
  if user_id ∈ user_list then user_list else user_list ++ [user_id]

/-- One `tag_contributors` entry of `create_contributor_lists`: a dictionary
with the tag and three role lists kept duplicate-free by `add_user_to_list`. -/
structure TagContributorSet where
  tag : Tag
  askers : List UserId
  answerers : List UserId
  commenters : List UserId
deriving DecidableEq, Repr

/-- Embeds `find_dict_in_list(tag, 'tag', tag_contributors)` with `return_index=True`:
index of the first entry whose `tag` field equals `tag`, else `None`. -/
def findTagIndex (tag : Tag) : List TagContributorSet → Option Nat
  | [] => none
  | tc :: tcs =>
    if tc.tag = tag then some 0 else (findTagIndex tag tcs).map (· + 1)

/-- Embeds `find_dict_in_list(tag, 'tag', tag_contributors, False)`: the first entry
whose `tag` field equals `tag`, else `None`. -/
def findTagContributors (tag : Tag) : List TagContributorSet → Option TagContributorSet
  | [] => none
  | tc :: tcs => if tc.tag = tag then some tc else findTagContributors tag tcs

/-- Embeds `find_dict_in_list(answer['question_id'], 'question_id', questions, False)`:
the first question whose `question_id` equals `qid`, else `None`. -/
def find_question (qid : Nat) : List Question → Option Question
  | [] => none
  | q :: qs => if q.question_id = qid then some q else find_question qid qs

/-- A fresh `tag_contributors` entry as appended at usage_report.py:179-186. -/
def newTagContributorSet (tag : Tag) : TagContributorSet :=
  { tag := tag, askers := [], answerers := [], commenters := [] }

/-- The `while True` create-on-first-use loop at usage_report.py:176-188:
search for the tag, append a fresh entry on a miss, retry.  Modelled with
explicit fuel; `tagLoop_two_iterations` proves that fuel 2 always suffices
(the appended entry matches the searched tag), so the bounded model coincides
with the unbounded Python loop. -/
def tagLoop : Nat → Tag → List TagContributorSet → Option (Nat × List TagContributorSet)
  | 0, _, _ => none
  | fuel + 1, tag, tcs =>
    match findTagIndex tag tcs with
    | some i => some (i, tcs)
    | none => tagLoop fuel tag (tcs ++ [newTagContributorSet tag])

/-- In-place update of `tag_contributors[i]` (list element assignment).  Every
call site passes an index obtained from a successful search, so the
out-of-range case (which would raise `IndexError` in Python) is unreachable. -/
def modifyTC : List TagContributorSet → Nat → (TagContributorSet → TagContributorSet) →
    List TagContributorSet
  | [], _, _ => []
  | tc :: tcs, 0, f => f tc :: tcs
  | tc :: tcs, i + 1, f => tc :: modifyTC tcs i f

/-- The four accumulators of `create_contributor_lists`
(usage_report.py:167-170), returned as its 4-tuple. -/
structure CLState where
  tag_contributors : List TagContributorSet
  question_contributors : List UserId
  answer_contributors : List UserId
  comment_contributors : List UserId
deriving DecidableEq, Repr

/-- A left fold in which the body may raise (Python `for` loop whose body can
throw): the first `none` aborts the whole loop. -/
def foldlO (f : σ → α → Option σ) : σ → List α → Option σ
  | s, [] => some s
  | s, x :: xs =>
    match f s x with
    | none => none
    | some s₂ => foldlO f s₂ xs

/-- The comment loop shared by both phases of `create_contributor_lists`
(usage_report.py:195-200 and 213-218): for each comment, resolve the commenter,
add it to the global commenter list and to `tag_contributors[i]`'s commenters. -/
def addCommenters (cs : List Comment) (i : Nat) (st : CLState) : CLState :=
  cs.foldl (fun st c =>
    let commenter_id := validate_user_id c.owner
    { st with
      comment_contributors := add_user_to_list commenter_id st.comment_contributors,
      tag_contributors := modifyTC st.tag_contributors i (fun tc =>
        { tc with commenters := add_user_to_list commenter_id tc.commenters }) }) st

/-- Body of the per-tag loop of the question phase (usage_report.py:175-200):
run the create-on-first-use loop, add the asker to the tag's askers, then, if
the question carries comments, process them.  (A present-but-empty comment
list is falsy in Python and skipped; iterating it would be a no-op, so the
`Option` match is equivalent.) -/
def processQuestionTag (asker_id : UserId) (q : Question) (st : CLState) (tag : Tag) :
    Option CLState :=
  match tagLoop 2 tag st.tag_contributors with
  | none => none
  | some (i, tcs) =>
    let tcs := modifyTC tcs i (fun tc =>
      { tc with askers := add_user_to_list asker_id tc.askers })
    let st := { st with tag_contributors := tcs }
    some (match q.comments with
      | some cs => addCommenters cs i st
      | none => st)

/-- Question phase body (usage_report.py:172-200): resolve the asker, add them
to the global asker list, then process each tag. -/
def processQuestion (st : CLState) (q : Question) : Option CLState :=
  let asker_id := validate_user_id q.owner
  let st := { st with
    question_contributors := add_user_to_list asker_id st.question_contributors }
  foldlO (processQuestionTag asker_id q) st q.tags

/-- Body of the per-tag loop of the answer phase (usage_report.py:207-218):
plain index lookup (no create-on-first-use); a miss makes Python subscript with
`None` and raise, modelled by `none`. -/
def processAnswerTag (answerer_id : UserId) (a : Answer) (st : CLState) (tag : Tag) :
    Option CLState :=
  match findTagIndex tag st.tag_contributors with
  | none => none
  | some i =>
    let tcs := modifyTC st.tag_contributors i (fun tc =>
      { tc with answerers := add_user_to_list answerer_id tc.answerers })
    let st := { st with tag_contributors := tcs }
    some (match a.comments with
      | some cs => addCommenters cs i st
      | none => st)

/-- Answer phase body (usage_report.py:202-218): resolve the answerer, add them
to the global answerer list, look up the parent question (`None` on a miss
makes `question['tags']` raise, modelled by `none`), then process each parent
tag. -/
def processAnswer (questions : List Question) (st : CLState) (a : Answer) :
    Option CLState :=
  let answerer_id := validate_user_id a.owner
  let st := { st with
    answer_contributors := add_user_to_list answerer_id st.answer_contributors }
  match find_question a.question_id questions with
  | none => none
  | some q => foldlO (processAnswerTag answerer_id a) st q.tags

/-- Embeds `create_contributor_lists` (usage_report.py:150-220). -/
def create_contributor_lists (questions : List Question) (answers : List Answer) :
    Option CLState :=
  match foldlO processQuestion
      { tag_contributors := [], question_contributors := [],
        answer_contributors := [], comment_contributors := [] } questions with
  | none => none
  | some st => foldlO (processAnswer questions) st answers

/-- Embeds `asked_and_answered` (usage_report.py:103): question contributors who also
appear among the answer contributors. -/
def asked_and_answered (st : CLState) : List UserId :=
  st.question_contributors.filter (fun u => decide (u ∈ st.answer_contributors))

/-- Embeds `all_unique_contributors` (usage_report.py:104-105):
`set(question_contributors + answer_contributors + comment_contributors)`,
modelled as the deduplicated concatenation. -/
def all_unique_contributors (st : CLState) : List UserId :=
  (st.question_contributors ++ st.answer_contributors ++ st.comment_contributors).dedup

/-- Embeds `contributor_count` (usage_report.py:112), the number printed as
`Total users who asked OR answered`. -/
def contributor_count (questions : List Question) (answers : List Answer) : Option Nat :=
  (create_contributor_lists questions answers).map
    (fun st => (all_unique_contributors st).length)

/-- Embeds `calculate_user_badges` (usage_report.py:343-350). -/
def calculate_user_badges (users : List User) : Nat :=
  users.foldl (fun n u => if u.badge_counts_bronze > 0 then n + 1 else n) 0

/-- One `tag_metrics` entry of `create_tag_report`, with the fields of the
dictionary initialised at usage_report.py:231-247. -/
structure TagMetrics where
  view_count : Nat
  unique_askers : Nat
  unique_answerers : Nat
  unique_commenters : Nat
  unique_contributors : Nat
  question_count : Nat
  question_upvotes : Nat
  question_downvotes : Nat
  question_comments : Nat
  questions_no_answers : Nat
  questions_accepted_answer : Nat
  answer_count : Nat
  answer_upvotes : Nat
  answer_downvotes : Nat
  answer_comments : Nat
deriving DecidableEq, Repr

/-- The fresh `tag_metrics[tag]` dictionary created on `KeyError`
(usage_report.py:231-247): all counters zero except `question_count`,
initialised directly to 1. -/
def initTagMetrics : TagMetrics :=
  { view_count := 0, unique_askers := 0, unique_answerers := 0,
    unique_commenters := 0, unique_contributors := 0, question_count := 1,
    question_upvotes := 0, question_downvotes := 0, question_comments := 0,
    questions_no_answers := 0, questions_accepted_answer := 0,
    answer_count := 0, answer_upvotes := 0, answer_downvotes := 0,
    answer_comments := 0 }

/-- The `tag_metrics` dictionary, modelled as an association list in insertion
order (CPython dicts preserve insertion order, which the final sort's
tie-breaking depends on). -/
abbrev TagMetricsTable := List (Tag × TagMetrics)

/-- Dictionary read `tag_metrics[tag]`: `none` models a `KeyError`. -/
def lookupTagMetrics (tag : Tag) : TagMetricsTable → Option TagMetrics
  | [] => none
  | p :: ps => if p.1 = tag then some p.2 else lookupTagMetrics tag ps

/-- Dictionary write `tag_metrics[tag] = m`: overwrite in place when the key
exists (position preserved), append otherwise. -/
def setTagMetrics (tag : Tag) (m : TagMetrics) : TagMetricsTable → TagMetricsTable
  | [] => [(tag, m)]
  | p :: ps => if p.1 = tag then (tag, m) :: ps else p :: setTagMetrics tag m ps

/-- Body of the per-tag loop of the question phase of `create_tag_report`
(usage_report.py:227-269): create-or-increment the entry, accumulate the
question counters (a missing comment list raises `KeyError`, caught and
ignored), then look up the tag's contributor entry in `tag_contributors`
(a miss makes Python subscript `None` and raise, modelled by `none`) and
overwrite the four `unique_*` fields from it. -/
def stepQuestionMetrics (tcs : List TagContributorSet) (q : Question)
    (tm : TagMetricsTable) (tag : Tag) : Option TagMetricsTable :=
  let m := match lookupTagMetrics tag tm with
    | some m => { m with question_count := m.question_count + 1 }
    | none => initTagMetrics
  let m := { m with
    view_count := m.view_count + q.view_count,
    question_upvotes := m.question_upvotes + q.up_vote_count,
    question_downvotes := m.question_downvotes + q.down_vote_count }
  let m := match q.comments with
    | some cs => { m with question_comments := m.question_comments + cs.length }
    | none => m
  let m := if q.answer_count = 0 then
    { m with questions_no_answers := m.questions_no_answers + 1 } else m
  let m := if q.is_answered then
    { m with questions_accepted_answer := m.questions_accepted_answer + 1 } else m
  match findTagContributors tag tcs with
  | none => none
  | some tc =>
    some (setTagMetrics tag
      { m with
        unique_askers := tc.askers.length,
        unique_answerers := tc.answerers.length,
        unique_commenters := tc.commenters.length,
        unique_contributors :=
          (tc.askers ++ tc.answerers ++ tc.commenters).dedup.length } tm)

/-- Question phase body of `create_tag_report` (usage_report.py:226-269). -/
def processQuestionMetrics (tcs : List TagContributorSet) (tm : TagMetricsTable)
    (q : Question) : Option TagMetricsTable :=
  foldlO (stepQuestionMetrics tcs q) tm q.tags

/-- Body of the per-tag loop of the answer phase of `create_tag_report`
(usage_report.py:273-280): `tag_metrics[tag]` must exist (a `KeyError` here is
uncaught, modelled by `none`); accumulate the answer counters, with a missing
comment list again caught and ignored. -/
def stepAnswerMetrics (a : Answer) (tm : TagMetricsTable) (tag : Tag) :
    Option TagMetricsTable :=
  match lookupTagMetrics tag tm with
  | none => none
  | some m =>
    let m := { m with
      answer_count := m.answer_count + 1,
      answer_upvotes := m.answer_upvotes + a.up_vote_count,
      answer_downvotes := m.answer_downvotes + a.down_vote_count }
    let m := match a.comments with
      | some cs => { m with answer_comments := m.answer_comments + cs.length }
      | none => m
    some (setTagMetrics tag m tm)

/-- Answer phase body of `create_tag_report` (usage_report.py:271-280): look up
the parent question (`None` on a miss makes `question['tags']` raise), then
accumulate into each parent tag. -/
def processAnswerMetrics (questions : List Question) (tm : TagMetricsTable)
    (a : Answer) : Option TagMetricsTable :=
  match find_question a.question_id questions with
  | none => none
  | some q => foldlO (stepAnswerMetrics a) tm q.tags

/-- The `tag_metrics` dictionary after both accumulation loops of
`create_tag_report` (usage_report.py:225-280), before sorting. -/
def tagMetricsTable (questions : List Question) (answers : List Answer)
    (tcs : List TagContributorSet) : Option TagMetricsTable :=
  match foldlO (processQuestionMetrics tcs) [] questions with
  | none => none
  | some tm => foldlO (processAnswerMetrics questions) tm answers

/-- The comparison used at usage_report.py:282-283:
`sorted(tag_metrics.items(), key=lambda x: x[1]['view_count'], reverse=True)`.
`viewDescOrder a b` holds when `a` may precede `b` in the descending order. -/
def viewDescOrder (a b : Tag × TagMetrics) : Prop :=
  b.2.view_count ≤ a.2.view_count

instance : DecidableRel viewDescOrder := fun a b =>
  inferInstanceAs (Decidable (b.2.view_count ≤ a.2.view_count))

/-- Embeds `tags_sorted_by_view_count` (usage_report.py:282-283).  Python's `sorted`
is stable and `reverse=True` keeps equal-key elements in original order;
insertion sort with `viewDescOrder` (insert before the first element of
not-greater view count) has exactly that behaviour. -/
def tags_sorted_by_view_count (tm : TagMetricsTable) : TagMetricsTable :=
  List.insertionSort viewDescOrder tm

/-- Embeds `create_tag_report` (usage_report.py:223-297), up to the produced table of
rows (CSV serialisation is out of scope). -/
def create_tag_report (questions : List Question) (answers : List Answer)
    (tcs : List TagContributorSet) : Option TagMetricsTable :=
  (tagMetricsTable questions answers tcs).map tags_sorted_by_view_count

/-- The concatenation of the tag lists of all questions, in scan order. -/
def allTags : List Question → List Tag
  | [] => []
  | q :: qs => q.tags ++ allTags qs

/-- First-occurrence subsequence: keeps each tag at its first appearance,
dropping later duplicates (`acc` holds the tags already seen, in order). -/
def collectFirst (acc : List Tag) : List Tag → List Tag
  | [] => acc
  | t :: ts => if t ∈ acc then collectFirst acc ts else collectFirst (acc ++ [t]) ts

/-- The full program state of `create_usage_report`: the three input snapshots
plus the structures the aggregation builds.  Used to state frame conditions:
the pipeline only ever assigns to the output fields. -/
structure ReportState where
  users : List User
  questions : List Question
  answers : List Answer
  contributors : CLState
  tag_metrics : TagMetricsTable
deriving DecidableEq, Repr

/-- The aggregation pipeline of `create_usage_report` (usage_report.py:100-139)
as a transformer of the whole program state: build the contributor lists, then
the tag report; the input snapshots are only read. -/
def runAggregation (rs : ReportState) : Option ReportState :=
  match create_contributor_lists rs.questions rs.answers with
  | none => none
  | some st =>
    match create_tag_report rs.questions rs.answers st.tag_contributors with
    | none => none
    | some rows => some { rs with contributors := st, tag_metrics := rows }

/-- All three role lists of a `tag_contributors` entry are duplicate-free. -/
def rolesNodup (tc : TagContributorSet) : Prop :=
  tc.askers.Nodup ∧ tc.answerers.Nodup ∧ tc.commenters.Nodup

/-- Every contributor list held in the accumulator state is duplicate-free. -/
def clNodup (st : CLState) : Prop :=
  st.question_contributors.Nodup ∧ st.answer_contributors.Nodup ∧
    st.comment_contributors.Nodup ∧ ∀ tc ∈ st.tag_contributors, rolesNodup tc

/-- User `u` is recorded among the askers of `tag`'s contributor entry. -/
def askerRecorded (tag : Tag) (u : UserId) (st : CLState) : Prop :=
  ∃ tc, findTagContributors tag st.tag_contributors = some tc ∧ u ∈ tc.askers

/-- Every entry of the metrics table has its `unique_contributors` field equal
to the deduplicated size of the pooled role lists of its tag's contributor
entry in `tcs`. -/
def uniqueFromContributors (tcs : List TagContributorSet) (tm : TagMetricsTable) : Prop :=
  ∀ p ∈ tm, ∃ tc, findTagContributors p.1 tcs = some tc ∧
    p.2.unique_contributors = (tc.askers ++ tc.answerers ++ tc.commenters).dedup.length

/-! Concrete inputs: the specification's concrete scenario (spec §8) and a
commenter-only input, used as witnesses and counterexamples. -/

/-- Question 1 of the specification's concrete scenario. -/
def sampleQ1 : Question :=
  { question_id := 1, tags := ["a", "b"], view_count := 10, up_vote_count := 0,
    down_vote_count := 0, answer_count := 1, is_answered := true,
    comments := none, owner := some { user_id := some 5 } }

/-- Question 2 of the specification's concrete scenario. -/
def sampleQ2 : Question :=
  { question_id := 2, tags := ["a"], view_count := 5, up_vote_count := 0,
    down_vote_count := 0, answer_count := 0, is_answered := false,
    comments := none, owner := some { user_id := some 6 } }

/-- The answer of the specification's concrete scenario. -/
def sampleA1 : Answer :=
  { answer_id := 100, question_id := 1, up_vote_count := 0,
    down_vote_count := 0, comments := none, owner := some { user_id := some 7 } }

/-- An answer whose `question_id` (999) matches no loaded question. -/
def orphanAnswer : Answer :=
  { answer_id := 101, question_id := 999, up_vote_count := 0,
    down_vote_count := 0, comments := none, owner := some { user_id := some 7 } }

/-- The contributor lists the script builds from the sample scenario. -/
def sampleCL : CLState :=
  { tag_contributors :=
      [{ tag := "a", askers := [UserId.known 5, UserId.known 6],
         answerers := [UserId.known 7], commenters := [] },
       { tag := "b", askers := [UserId.known 5],
         answerers := [UserId.known 7], commenters := [] }],
    question_contributors := [UserId.known 5, UserId.known 6],
    answer_contributors := [UserId.known 7],
    comment_contributors := [] }

/-- The metrics the script computes for tag `"a"` of the sample scenario. -/
def sampleMetricsA : TagMetrics :=
  { view_count := 15, unique_askers := 2, unique_answerers := 1,
    unique_commenters := 0, unique_contributors := 3, question_count := 2,
    question_upvotes := 0, question_downvotes := 0, question_comments := 0,
    questions_no_answers := 1, questions_accepted_answer := 1,
    answer_count := 1, answer_upvotes := 0, answer_downvotes := 0,
    answer_comments := 0 }

/-- The metrics the script computes for tag `"b"` of the sample scenario. -/
def sampleMetricsB : TagMetrics :=
  { view_count := 10, unique_askers := 1, unique_answerers := 1,
    unique_commenters := 0, unique_contributors := 2, question_count := 1,
    question_upvotes := 0, question_downvotes := 0, question_comments := 0,
    questions_no_answers := 0, questions_accepted_answer := 1,
    answer_count := 1, answer_upvotes := 0, answer_downvotes := 0,
    answer_comments := 0 }

/-- The `tag_metrics` dictionary the script builds from the sample scenario. -/
def sampleTable : TagMetricsTable :=
  [("a", sampleMetricsA), ("b", sampleMetricsB)]

/-- A question whose `owner` key is absent, carrying one comment by user 9. -/
def noOwnerQuestion : Question :=
  { question_id := 3, tags := ["x"], view_count := 2, up_vote_count := 0,
    down_vote_count := 0, answer_count := 0, is_answered := false,
    comments := some [{ owner := some { user_id := some 9 } }], owner := none }

/-- The contributor lists the script builds from `[noOwnerQuestion]` and no
answers: the asker is recorded as the `"unknown"` sentinel. -/
def noOwnerCL : CLState :=
  { tag_contributors :=
      [{ tag := "x", askers := [UserId.unknown], answerers := [],
         commenters := [UserId.known 9] }],
    question_contributors := [UserId.unknown],
    answer_contributors := [],
    comment_contributors := [UserId.known 9] }

/-- A question asked by user 1 and carrying one comment by user 2, who neither
asks nor answers anything: user 2 is a commenter-only contributor. -/
def cexQuestion : Question :=
  { question_id := 1, tags := ["a"], view_count := 0, up_vote_count := 0,
    down_vote_count := 0, answer_count := 0, is_answered := false,
    comments := some [{ owner := some { user_id := some 2 } }],
    owner := some { user_id := some 1 } }

/-- The contributor lists the script builds from `[cexQuestion]` and no
answers. -/
def cexCL : CLState :=
  { tag_contributors :=
      [{ tag := "a", askers := [UserId.known 1], answerers := [],
         commenters := [UserId.known 2] }],
    question_contributors := [UserId.known 1],
    answer_contributors := [],
    comment_contributors := [UserId.known 2] }

/-- Program state holding the specification's concrete scenario as input
snapshots, with empty output structures. -/
def sampleReport : ReportState :=
  { users := [], questions := [sampleQ1, sampleQ2], answers := [sampleA1],
    contributors :=
      { tag_contributors := [], question_contributors := [],
        answer_contributors := [], comment_contributors := [] },
    tag_metrics := [] }

/-- Program state after running the aggregation pipeline on `sampleReport`. -/
def sampleReportOut : ReportState :=
  { sampleReport with contributors := sampleCL, tag_metrics := sampleTable }

/-- Result of one question-phase metrics step on the empty table for
`sampleQ1` under tag `"a"`. -/
def sampleStepQTable : TagMetricsTable :=
  [("a",
    { view_count := 10, unique_askers := 2, unique_answerers := 1,
      unique_commenters := 0, unique_contributors := 3, question_count := 1,
      question_upvotes := 0, question_downvotes := 0, question_comments := 0,
      questions_no_answers := 0, questions_accepted_answer := 1,
      answer_count := 0, answer_upvotes := 0, answer_downvotes := 0,
      answer_comments := 0 })]

/-- Result of one answer-phase metrics step on `sampleTable` for `sampleA1`
under tag `"a"`. -/
def sampleStepATable : TagMetricsTable :=
  [("a",
    { view_count := 15, unique_askers := 2, unique_answerers := 1,
      unique_commenters := 0, unique_contributors := 3, question_count := 2,
      question_upvotes := 0, question_downvotes := 0, question_comments := 0,
      questions_no_answers := 1, questions_accepted_answer := 1,
      answer_count := 2, answer_upvotes := 0, answer_downvotes := 0,
      answer_comments := 0 }),
   ("b",
    { view_count := 10, unique_askers := 1, unique_answerers := 1,
      unique_commenters := 0, unique_contributors := 2, question_count := 1,
      question_upvotes := 0, question_downvotes := 0, question_comments := 0,
      questions_no_answers := 0, questions_accepted_answer := 1,
      answer_count := 1, answer_upvotes := 0, answer_downvotes := 0,
      answer_comments := 0 })]

/-! ## Basic lemmas about the embedded primitives -/

theorem foldlO_nil (f : σ → α → Option σ) (s : σ) : foldlO f s [] = some s := rfl

theorem foldlO_cons (f : σ → α → Option σ) (s : σ) (x : α) (xs : List α) :
    foldlO f s (x :: xs) =
      match f s x with
      | none => none
      | some s₂ => foldlO f s₂ xs := rfl

/-- An invariant holding of the seed and preserved by every successful step
holds of the result of `foldlO`. -/
theorem foldlO_inv {P : σ → Prop} {f : σ → α → Option σ} :
    ∀ {l : List α} {s s₂ : σ},
      (∀ t x t₂, x ∈ l → P t → f t x = some t₂ → P t₂) →
      P s → foldlO f s l = some s₂ → P s₂ := by
  intro l
  induction l with
  | nil => intro s s₂ _ hP h; cases h; exact hP
  | cons x xs ih =>
    intro s s₂ hstep hP h
    rw [foldlO_cons] at h
    cases hfx : f s x with
    | none => rw [hfx] at h; cases h
    | some t =>
      rw [hfx] at h
      exact ih (fun t x₂ t₂ hx₂ => hstep t x₂ t₂ (List.mem_cons_of_mem _ hx₂))
        (hstep s x t (List.mem_cons_self _ _) hP hfx) h

/-- If some element of the list makes the body fail from every state, the whole
`foldlO` fails. -/
theorem foldlO_none_of_mem {f : σ → α → Option σ} {x : α} :
    ∀ {l : List α}, x ∈ l → (∀ s, f s x = none) → ∀ s, foldlO f s l = none := by
  intro l
  induction l with
  | nil => intro h; cases h
  | cons y ys ih =>
    intro hx hfail s
    rw [foldlO_cons]
    rcases List.mem_cons.mp hx with rfl | hx₂
    · rw [hfail s]
    · cases hfy : f s y with
      | none => rfl
      | some t => exact ih hx₂ hfail t

/-- A property established by processing element `x` of the list and preserved
by every successful step holds of the result of `foldlO`. -/
theorem foldlO_establish {P : σ → Prop} {f : σ → α → Option σ} {x : α} :
    ∀ {l : List α} {s s₂ : σ}, x ∈ l →
      (∀ t t₂, f t x = some t₂ → P t₂) →
      (∀ t y t₂, P t → f t y = some t₂ → P t₂) →
      foldlO f s l = some s₂ → P s₂ := by
  intro l
  induction l with
  | nil => intro s s₂ h; cases h
  | cons y ys ih =>
    intro s s₂ hx hest hpres h
    rw [foldlO_cons] at h
    cases hfy : f s y with
    | none => rw [hfy] at h; cases h
    | some t =>
      rw [hfy] at h
      rcases List.mem_cons.mp hx with rfl | hx₂
      · exact foldlO_inv (fun t y₂ t₂ _ => hpres t y₂ t₂) (hest s t hfy) h
      · exact ih hx₂ hest hpres h

theorem mem_add_user_to_list (u : UserId) (l : List UserId) :
    u ∈ add_user_to_list u l := by
  unfold add_user_to_list
  split
  · assumption
  · simp

theorem subset_add_user_to_list (u : UserId) (l : List UserId) :
    l ⊆ add_user_to_list u l := by
  unfold add_user_to_list
  split
  · exact fun _ h => h
  · exact fun _ h => List.mem_append_left _ h

theorem nodup_add_user_to_list {l : List UserId} (u : UserId) (h : l.Nodup) :
    (add_user_to_list u l).Nodup := by
  unfold add_user_to_list
  split
  · exact h
  · next hmem => simp [List.nodup_append, h, hmem]

/-- A successful `findTagIndex` addresses an entry whose tag matches. -/
theorem findTagIndex_some {tag : Tag} :
    ∀ {tcs : List TagContributorSet} {i : Nat}, findTagIndex tag tcs = some i →
      ∃ tc, tcs.get? i = some tc ∧ tc.tag = tag := by
  intro tcs
  induction tcs with
  | nil => intro i h; cases h
  | cons tc tcs ih =>
    intro i h
    unfold findTagIndex at h
    split at h
    · cases h; exact ⟨tc, rfl, by assumption⟩
    · cases hfind : findTagIndex tag tcs with
      | none => rw [hfind] at h; cases h
      | some j =>
        rw [hfind] at h
        cases h
        obtain ⟨tc₂, hget, htag⟩ := ih hfind
        exact ⟨tc₂, hget, htag⟩

/-- Appending an entry for the searched tag to a list that lacks it makes the
search succeed at the old length. -/
theorem findTagIndex_append {tag : Tag} :
    ∀ {tcs : List TagContributorSet}, findTagIndex tag tcs = none →
      findTagIndex tag (tcs ++ [newTagContributorSet tag]) = some tcs.length := by
  intro tcs
  induction tcs with
  | nil => intro _; simp [findTagIndex, newTagContributorSet]
  | cons tc tcs ih =>
    intro h
    unfold findTagIndex at h ⊢
    split at h
    · cases h
    · next hne =>
      cases hfind : findTagIndex tag tcs with
      | none => simp [hne, ih hfind]
      | some j => rw [hfind] at h; cases h

/-- Specification of the bounded create-on-first-use loop: on success the
returned index is the first index of the searched tag in the returned list,
which is the input list, possibly extended by one fresh entry. -/
theorem tagLoop_spec {tag : Tag} {tcs tcs₂ : List TagContributorSet} {i : Nat}
    (h : tagLoop 2 tag tcs = some (i, tcs₂)) :
    findTagIndex tag tcs₂ = some i ∧
      (tcs₂ = tcs ∨ tcs₂ = tcs ++ [newTagContributorSet tag]) := by
  unfold tagLoop at h
  cases hfind : findTagIndex tag tcs with
  | some j =>
    rw [hfind] at h
    cases h
    exact ⟨hfind, Or.inl rfl⟩
  | none =>
    rw [hfind] at h
    unfold tagLoop at h
    cases hfind₂ : findTagIndex tag (tcs ++ [newTagContributorSet tag]) with
    | some j =>
      rw [hfind₂] at h
      cases h
      exact ⟨hfind₂, Or.inr rfl⟩
    | none => rw [hfind₂] at h; cases h

/-- The bounded loop with fuel 2 always succeeds: if the first search misses,
the appended fresh entry is found by the second search. -/
theorem tagLoop_total (tag : Tag) (tcs : List TagContributorSet) :
    ∃ i tcs₂, tagLoop 2 tag tcs = some (i, tcs₂) := by
  unfold tagLoop
  cases hfind : findTagIndex tag tcs with
  | some j => exact ⟨j, tcs, rfl⟩
  | none =>
    refine ⟨tcs.length, tcs ++ [newTagContributorSet tag], ?_⟩
    unfold tagLoop
    rw [findTagIndex_append hfind]

/-- An element of the list found with no matching question id means
`find_question` misses. -/
theorem find_question_eq_none {qid : Nat} :
    ∀ {qs : List Question}, (∀ q ∈ qs, q.question_id ≠ qid) →
      find_question qid qs = none := by
  intro qs
  induction qs with
  | nil => intro _; rfl
  | cons q qs ih =>
    intro h
    unfold find_question
    rw [if_neg (h q (List.mem_cons_self _ _))]
    exact ih fun q₂ hq₂ => h q₂ (List.mem_cons_of_mem _ hq₂)

/-- Reading back the key just written. -/
theorem lookup_setTagMetrics (tag : Tag) (m : TagMetrics) :
    ∀ tm : TagMetricsTable, lookupTagMetrics tag (setTagMetrics tag m tm) = some m := by
  intro tm
  induction tm with
  | nil => simp [setTagMetrics, lookupTagMetrics]
  | cons p ps ih =>
    unfold setTagMetrics
    split
    · simp [lookupTagMetrics]
    · next hne => simp [lookupTagMetrics, hne, ih]

/-- An invariant preserved by every step of a plain `List.foldl` holds of its
result. -/
theorem foldl_preserve {σ α : Type _} {P : σ → Prop} {f : σ → α → σ} :
    ∀ {l : List α} {s : σ}, (∀ t x, x ∈ l → P t → P (f t x)) → P s →
      P (l.foldl f s) := by
  intro l
  induction l with
  | nil => intro s _ h; exact h
  | cons x xs ih =>
    intro s hstep hP
    rw [List.foldl_cons]
    exact ih (fun t y hy => hstep t y (List.mem_cons_of_mem _ hy))
      (hstep s x (List.mem_cons_self _ _) hP)

/-- Membership after an in-place element update. -/
theorem mem_modifyTC {f : TagContributorSet → TagContributorSet} :
    ∀ {tcs : List TagContributorSet} {i : Nat} {tc₂ : TagContributorSet},
      tc₂ ∈ modifyTC tcs i f → tc₂ ∈ tcs ∨ ∃ tc ∈ tcs, tc₂ = f tc := by
  intro tcs
  induction tcs with
  | nil => intro i tc₂ h; simp only [modifyTC] at h; cases h
  | cons tc tcs ih =>
    intro i tc₂ h
    cases i with
    | zero =>
      simp only [modifyTC] at h
      rcases List.mem_cons.mp h with rfl | h₂
      · exact Or.inr ⟨tc, List.mem_cons_self _ _, rfl⟩
      · exact Or.inl (List.mem_cons_of_mem _ h₂)
    | succ j =>
      simp only [modifyTC] at h
      rcases List.mem_cons.mp h with rfl | h₂
      · exact Or.inl (List.mem_cons_self _ _)
      · rcases ih h₂ with h₃ | ⟨tc₃, hm, he⟩
        · exact Or.inl (List.mem_cons_of_mem _ h₃)
        · exact Or.inr ⟨tc₃, List.mem_cons_of_mem _ hm, he⟩

/-- A successful first-match search is unaffected by appending entries. -/
theorem findTC_append {tag : Tag} {tc : TagContributorSet} :
    ∀ {tcs : List TagContributorSet}, findTagContributors tag tcs = some tc →
      ∀ l, findTagContributors tag (tcs ++ l) = some tc := by
  intro tcs
  induction tcs with
  | nil => intro h; cases h
  | cons tc₀ tcs ih =>
    intro h l
    rw [List.cons_append]
    simp only [findTagContributors] at h ⊢
    split at h
    · next heq => cases h; rw [if_pos heq]
    · next hne => rw [if_neg hne]; exact ih h l

/-- After an in-place update preserving every entry's tag, a successful
first-match search returns either the old entry or its updated image. -/
theorem findTC_modify {tag : Tag} {f : TagContributorSet → TagContributorSet}
    (hf : ∀ tc, (f tc).tag = tc.tag) :
    ∀ {tcs : List TagContributorSet} {i : Nat} {tc : TagContributorSet},
      findTagContributors tag tcs = some tc →
      findTagContributors tag (modifyTC tcs i f) = some tc ∨
        findTagContributors tag (modifyTC tcs i f) = some (f tc) := by
  intro tcs
  induction tcs with
  | nil => intro i tc h; cases h
  | cons tc₀ tcs ih =>
    intro i tc h
    simp only [findTagContributors] at h
    cases i with
    | zero =>
      simp only [modifyTC]
      split at h
      · next heq =>
        cases h
        right
        simp only [findTagContributors]
        rw [if_pos ((hf tc₀).trans heq)]
      · next hne =>
        left
        simp only [findTagContributors]
        rw [if_neg (fun he => hne ((hf tc₀).symm.trans he))]
        exact h
    | succ j =>
      simp only [modifyTC]
      split at h
      · next heq => cases h; left; simp only [findTagContributors]; rw [if_pos heq]
      · next hne =>
        simp only [findTagContributors]
        rw [if_neg hne]
        exact ih h

/-- Updating exactly the entry addressed by a successful `findTagIndex` makes
the first-match search return the updated image, provided tags are kept. -/
theorem findTC_modify_at_index {tag : Tag} {f : TagContributorSet → TagContributorSet}
    (hf : ∀ tc, (f tc).tag = tc.tag) :
    ∀ {tcs : List TagContributorSet} {i : Nat} {tc : TagContributorSet},
      findTagIndex tag tcs = some i → tcs.get? i = some tc →
      findTagContributors tag (modifyTC tcs i f) = some (f tc) := by
  intro tcs
  induction tcs with
  | nil => intro i tc h; cases h
  | cons tc₀ tcs ih =>
    intro i tc h hget
    unfold findTagIndex at h
    split at h
    · next heq =>
      cases h
      cases hget
      simp only [modifyTC]
      simp only [findTagContributors]
      rw [if_pos ((hf tc₀).trans heq)]
    · next hne =>
      cases hfind : findTagIndex tag tcs with
      | none => rw [hfind] at h; cases h
      | some j =>
        rw [hfind] at h
        cases h
        simp only [modifyTC]
        unfold findTagContributors
        rw [if_neg hne]
        exact ih hfind hget

/-- A found entry is a member of the searched list. -/
theorem findTC_mem {tag : Tag} {tc : TagContributorSet} :
    ∀ {tcs : List TagContributorSet}, findTagContributors tag tcs = some tc →
      tc ∈ tcs := by
  intro tcs
  induction tcs with
  | nil => intro h; cases h
  | cons tc₀ tcs ih =>
    intro h
    unfold findTagContributors at h
    split at h
    · cases h; exact List.mem_cons_self _ _
    · exact List.mem_cons_of_mem _ (ih h)

/-! ### Duplicate-freedom invariant (clNodup) -/

theorem rolesNodup_new (tag : Tag) : rolesNodup (newTagContributorSet tag) := by
  refine ⟨List.nodup_nil, List.nodup_nil, List.nodup_nil⟩

/-- One comment-processing step keeps all lists duplicate-free. -/
theorem addCommenters_clNodup {cs : List Comment} {i : Nat} {st : CLState}
    (h : clNodup st) : clNodup (addCommenters cs i st) := by
  unfold addCommenters
  refine foldl_preserve (fun t c _ ht => ?_) h
  obtain ⟨h₁, h₂, h₃, h₄⟩ := ht
  refine ⟨h₁, h₂, nodup_add_user_to_list _ h₃, ?_⟩
  intro tc₂ hmem
  rcases mem_modifyTC hmem with hold | ⟨tc, hmemtc, rfl⟩
  · exact h₄ tc₂ hold
  · obtain ⟨ha, hb, hc⟩ := h₄ tc hmemtc
    exact ⟨ha, hb, nodup_add_user_to_list _ hc⟩

theorem processQuestionTag_clNodup {asker : UserId} {q : Question}
    {st st₂ : CLState} {tag : Tag} (hP : clNodup st)
    (h : processQuestionTag asker q st tag = some st₂) : clNodup st₂ := by
  unfold processQuestionTag at h
  cases hloop : tagLoop 2 tag st.tag_contributors with
  | none => rw [hloop] at h; cases h
  | some p =>
    obtain ⟨i, tcs₂⟩ := p
    rw [hloop] at h
    obtain ⟨_, hcase⟩ := tagLoop_spec hloop
    obtain ⟨h₁, h₂, h₃, h₄⟩ := hP
    have htcs₂ : ∀ tc ∈ tcs₂, rolesNodup tc := by
      rcases hcase with rfl | rfl
      · exact h₄
      · intro tc hmem
        rcases List.mem_append.mp hmem with hmem₂ | hmem₂
        · exact h₄ tc hmem₂
        · rcases List.mem_singleton.mp hmem₂ with rfl
          exact rolesNodup_new tag
    have hmid : clNodup
        { st with tag_contributors := modifyTC tcs₂ i (fun tc =>
            { tc with askers := add_user_to_list asker tc.askers }) } := by
      refine ⟨h₁, h₂, h₃, ?_⟩
      intro tc₂ hmem
      rcases mem_modifyTC hmem with hold | ⟨tc, hmemtc, rfl⟩
      · exact htcs₂ tc₂ hold
      · obtain ⟨ha, hb, hc⟩ := htcs₂ tc hmemtc
        exact ⟨nodup_add_user_to_list _ ha, hb, hc⟩
    cases h
    cases q.comments with
    | none => exact hmid
    | some cs => exact addCommenters_clNodup hmid

theorem processQuestion_clNodup {st st₂ : CLState} {q : Question}
    (hP : clNodup st) (h : processQuestion st q = some st₂) : clNodup st₂ := by
  unfold processQuestion at h
  refine foldlO_inv (fun t tg t₂ _ ht hstep => processQuestionTag_clNodup ht hstep)
    ?_ h
  obtain ⟨h₁, h₂, h₃, h₄⟩ := hP
  exact ⟨nodup_add_user_to_list _ h₁, h₂, h₃, h₄⟩

theorem processAnswerTag_clNodup {answerer : UserId} {a : Answer}
    {st st₂ : CLState} {tag : Tag} (hP : clNodup st)
    (h : processAnswerTag answerer a st tag = some st₂) : clNodup st₂ := by
  unfold processAnswerTag at h
  cases hfind : findTagIndex tag st.tag_contributors with
  | none => rw [hfind] at h; cases h
  | some i =>
    rw [hfind] at h
    obtain ⟨h₁, h₂, h₃, h₄⟩ := hP
    have hmid : clNodup
        { st with tag_contributors := modifyTC st.tag_contributors i (fun tc =>
            { tc with answerers := add_user_to_list answerer tc.answerers }) } := by
      refine ⟨h₁, h₂, h₃, ?_⟩
      intro tc₂ hmem
      rcases mem_modifyTC hmem with hold | ⟨tc, hmemtc, rfl⟩
      · exact h₄ tc₂ hold
      · obtain ⟨ha, hb, hc⟩ := h₄ tc hmemtc
        exact ⟨ha, nodup_add_user_to_list _ hb, hc⟩
    cases h
    cases a.comments with
    | none => exact hmid
    | some cs => exact addCommenters_clNodup hmid

theorem processAnswer_clNodup {questions : List Question} {st st₂ : CLState}
    {a : Answer} (hP : clNodup st) (h : processAnswer questions st a = some st₂) :
    clNodup st₂ := by
  unfold processAnswer at h
  cases hfq : find_question a.question_id questions with
  | none => rw [hfq] at h; cases h
  | some q =>
    rw [hfq] at h
    refine foldlO_inv (fun t tg t₂ _ ht hstep => processAnswerTag_clNodup ht hstep)
      ?_ h
    obtain ⟨h₁, h₂, h₃, h₄⟩ := hP
    exact ⟨h₁, nodup_add_user_to_list _ h₂, h₃, h₄⟩

/-- Every list built by `create_contributor_lists` is duplicate-free. -/
theorem clNodup_create {questions : List Question} {answers : List Answer}
    {st : CLState} (h : create_contributor_lists questions answers = some st) :
    clNodup st := by
  unfold create_contributor_lists at h
  cases hphase : foldlO processQuestion
      { tag_contributors := [], question_contributors := [],
        answer_contributors := [], comment_contributors := [] } questions with
  | none => rw [hphase] at h; cases h
  | some st₁ =>
    rw [hphase] at h
    have h₁ : clNodup st₁ := by
      refine foldlO_inv (fun t q t₂ _ ht hstep => processQuestion_clNodup ht hstep)
        ?_ hphase
      exact ⟨List.nodup_nil, List.nodup_nil, List.nodup_nil, by intro tc htc; cases htc⟩
    exact foldlO_inv (fun t a t₂ _ ht hstep => processAnswer_clNodup ht hstep) h₁ h

/-! ### Persistence of recorded askers -/

theorem addCommenters_askerRecorded {cs : List Comment} {i : Nat} {st : CLState}
    {tag : Tag} {u : UserId} (h : askerRecorded tag u st) :
    askerRecorded tag u (addCommenters cs i st) := by
  unfold addCommenters
  refine foldl_preserve (fun t c _ ht => ?_) h
  obtain ⟨tc, hfind, hmem⟩ := ht
  rcases findTC_modify (f := fun tc =>
      { tc with commenters := add_user_to_list (validate_user_id c.owner) tc.commenters })
      (fun tc => rfl) hfind with h₂ | h₂
  · exact ⟨tc, h₂, hmem⟩
  · exact ⟨_, h₂, hmem⟩

theorem processQuestionTag_askerRecorded {asker : UserId} {q : Question}
    {st st₂ : CLState} {t tag : Tag} {u : UserId} (hP : askerRecorded tag u st)
    (h : processQuestionTag asker q st t = some st₂) : askerRecorded tag u st₂ := by
  unfold processQuestionTag at h
  cases hloop : tagLoop 2 t st.tag_contributors with
  | none => rw [hloop] at h; cases h
  | some p =>
    obtain ⟨i, tcs₂⟩ := p
    rw [hloop] at h
    obtain ⟨_, hcase⟩ := tagLoop_spec hloop
    obtain ⟨tc, hfind, hmem⟩ := hP
    have hfind₂ : findTagContributors tag tcs₂ = some tc := by
      rcases hcase with rfl | rfl
      · exact hfind
      · exact findTC_append hfind _
    have hmid : askerRecorded tag u
        { st with tag_contributors := modifyTC tcs₂ i (fun tc =>
            { tc with askers := add_user_to_list asker tc.askers }) } := by
      rcases findTC_modify (f := fun tc =>
          { tc with askers := add_user_to_list asker tc.askers })
          (fun tc => rfl) hfind₂ with h₂ | h₂
      · exact ⟨tc, h₂, hmem⟩
      · exact ⟨_, h₂, subset_add_user_to_list _ _ hmem⟩
    cases h
    cases q.comments with
    | none => exact hmid
    | some cs => exact addCommenters_askerRecorded hmid

/-- Processing the tag `t` of a question records its asker under `t`. -/
theorem processQuestionTag_establishes {asker : UserId} {q : Question}
    {st st₂ : CLState} {t : Tag} (h : processQuestionTag asker q st t = some st₂) :
    askerRecorded t asker st₂ := by
  unfold processQuestionTag at h
  cases hloop : tagLoop 2 t st.tag_contributors with
  | none => rw [hloop] at h; cases h
  | some p =>
    obtain ⟨i, tcs₂⟩ := p
    rw [hloop] at h
    obtain ⟨hidx, _⟩ := tagLoop_spec hloop
    obtain ⟨tc, hget, htag⟩ := findTagIndex_some hidx
    have hmid : askerRecorded t asker
        { st with tag_contributors := modifyTC tcs₂ i (fun tc =>
            { tc with askers := add_user_to_list asker tc.askers }) } := by
      have hfindmod := findTC_modify_at_index (f := fun tc =>
          { tc with askers := add_user_to_list asker tc.askers })
          (fun tc => rfl) hidx hget
      exact ⟨_, hfindmod, mem_add_user_to_list asker tc.askers⟩
    cases h
    cases q.comments with
    | none => exact hmid
    | some cs => exact addCommenters_askerRecorded hmid

theorem processQuestion_askerRecorded {st st₂ : CLState} {q : Question}
    {tag : Tag} {u : UserId} (hP : askerRecorded tag u st)
    (h : processQuestion st q = some st₂) : askerRecorded tag u st₂ := by
  unfold processQuestion at h
  refine foldlO_inv (fun t tg t₂ _ ht hstep =>
    processQuestionTag_askerRecorded ht hstep) ?_ h
  exact hP

theorem processAnswerTag_askerRecorded {answerer : UserId} {a : Answer}
    {st st₂ : CLState} {t tag : Tag} {u : UserId} (hP : askerRecorded tag u st)
    (h : processAnswerTag answerer a st t = some st₂) : askerRecorded tag u st₂ := by
  unfold processAnswerTag at h
  cases hfind : findTagIndex t st.tag_contributors with
  | none => rw [hfind] at h; cases h
  | some i =>
    rw [hfind] at h
    obtain ⟨tc, hfindtc, hmem⟩ := hP
    have hmid : askerRecorded tag u
        { st with tag_contributors := modifyTC st.tag_contributors i (fun tc =>
            { tc with answerers := add_user_to_list answerer tc.answerers }) } := by
      rcases findTC_modify (f := fun tc =>
          { tc with answerers := add_user_to_list answerer tc.answerers })
          (fun tc => rfl) hfindtc with h₂ | h₂
      · exact ⟨tc, h₂, hmem⟩
      · exact ⟨_, h₂, hmem⟩
    cases h
    cases a.comments with
    | none => exact hmid
    | some cs => exact addCommenters_askerRecorded hmid

theorem processAnswer_askerRecorded {questions : List Question} {st st₂ : CLState}
    {a : Answer} {tag : Tag} {u : UserId} (hP : askerRecorded tag u st)
    (h : processAnswer questions st a = some st₂) : askerRecorded tag u st₂ := by
  unfold processAnswer at h
  cases hfq : find_question a.question_id questions with
  | none => rw [hfq] at h; cases h
  | some q =>
    rw [hfq] at h
    refine foldlO_inv (fun t tg t₂ _ ht hstep =>
      processAnswerTag_askerRecorded ht hstep) ?_ h
    exact hP

/-- Every tag of every question ends up recording that question's resolved
asker among the tag's askers. -/
theorem asker_recorded_of_create {questions : List Question} {answers : List Answer}
    {st : CLState} {q : Question} {tag : Tag}
    (h : create_contributor_lists questions answers = some st)
    (hq : q ∈ questions) (htag : tag ∈ q.tags) :
    askerRecorded tag (validate_user_id q.owner) st := by
  unfold create_contributor_lists at h
  cases hphase : foldlO processQuestion
      { tag_contributors := [], question_contributors := [],
        answer_contributors := [], comment_contributors := [] } questions with
  | none => rw [hphase] at h; cases h
  | some st₁ =>
    rw [hphase] at h
    have h₁ : askerRecorded tag (validate_user_id q.owner) st₁ := by
      refine foldlO_establish hq ?_ (fun t q₂ t₂ ht hstep =>
        processQuestion_askerRecorded ht hstep) hphase
      intro t t₂ hstep
      unfold processQuestion at hstep
      exact foldlO_establish htag
        (fun s s₂ h₂ => processQuestionTag_establishes h₂)
        (fun s tg s₂ hs h₂ => processQuestionTag_askerRecorded hs h₂) hstep
    refine foldlO_inv (fun t a t₂ _ ht hstep =>
      processAnswer_askerRecorded ht hstep) ?_ h
    exact h₁

/-! ### Keys of the metrics table -/

/-- A successfully looked-up pair is a member of the table. -/
theorem lookupTagMetrics_mem {tag : Tag} {m : TagMetrics} :
    ∀ {tm : TagMetricsTable}, lookupTagMetrics tag tm = some m → (tag, m) ∈ tm := by
  intro tm
  induction tm with
  | nil => intro h; cases h
  | cons p ps ih =>
    intro h
    simp only [lookupTagMetrics] at h
    split at h
    · next heq => cases h; cases p; cases heq; exact List.mem_cons_self _ _
    · exact List.mem_cons_of_mem _ (ih h)

/-- A successful lookup means the key occurs in the table. -/
theorem lookupTagMetrics_mem_keys {tag : Tag} {m : TagMetrics}
    {tm : TagMetricsTable} (h : lookupTagMetrics tag tm = some m) :
    tag ∈ tm.map Prod.fst := by
  have := lookupTagMetrics_mem h
  exact List.mem_map.mpr ⟨(tag, m), this, rfl⟩

/-- A missed lookup means the key does not occur in the table. -/
theorem lookupTagMetrics_eq_none {tag : Tag} :
    ∀ {tm : TagMetricsTable}, lookupTagMetrics tag tm = none →
      tag ∉ tm.map Prod.fst := by
  intro tm
  induction tm with
  | nil => intro _ h; cases h
  | cons p ps ih =>
    intro h hmem
    simp only [lookupTagMetrics] at h
    split at h
    · cases h
    · next hne =>
      simp only [List.map_cons, List.mem_cons] at hmem
      rcases hmem with heq | hmem₂
      · exact hne heq.symm
      · exact ih h hmem₂

/-- Key sequence after a dictionary write: unchanged when the key is present,
extended at the end when it is new. -/
theorem setTagMetrics_keys (tag : Tag) (m : TagMetrics) :
    ∀ tm : TagMetricsTable,
      (setTagMetrics tag m tm).map Prod.fst =
        if tag ∈ tm.map Prod.fst then tm.map Prod.fst
        else tm.map Prod.fst ++ [tag] := by
  intro tm
  induction tm with
  | nil => simp [setTagMetrics]
  | cons p ps ih =>
    simp only [setTagMetrics]
    split
    · next heq => rw [if_pos (by simp [heq.symm])]; simp [heq]
    · next hne =>
      have hne₂ : ¬ tag = p.1 := fun h => hne h.symm
      by_cases hmem : tag ∈ ps.map Prod.fst
      · rw [if_pos (by simp [hmem])]
        simp only [List.map_cons, ih, if_pos hmem]
      · rw [if_neg (by simp [hmem, hne₂])]
        simp only [List.map_cons, ih, if_neg hmem, List.cons_append]

/-- Membership after a dictionary write. -/
theorem mem_setTagMetrics {p : Tag × TagMetrics} {tag : Tag} {m : TagMetrics} :
    ∀ {tm : TagMetricsTable}, p ∈ setTagMetrics tag m tm →
      p = (tag, m) ∨ p ∈ tm := by
  intro tm
  induction tm with
  | nil => intro h; simp only [setTagMetrics] at h; exact Or.inl (List.mem_singleton.mp h)
  | cons q qs ih =>
    intro h
    simp only [setTagMetrics] at h
    split at h
    · rcases List.mem_cons.mp h with rfl | h₂
      · exact Or.inl rfl
      · exact Or.inr (List.mem_cons_of_mem _ h₂)
    · rcases List.mem_cons.mp h with rfl | h₂
      · exact Or.inr (List.mem_cons_self _ _)
      · rcases ih h₂ with h₃ | h₃
        · exact Or.inl h₃
        · exact Or.inr (List.mem_cons_of_mem _ h₃)

/-- A successful question-phase step writes under the processed tag. -/
theorem stepQuestionMetrics_keys {tcs : List TagContributorSet} {q : Question}
    {tm tm₂ : TagMetricsTable} {tag : Tag}
    (h : stepQuestionMetrics tcs q tm tag = some tm₂) :
    tm₂.map Prod.fst =
      if tag ∈ tm.map Prod.fst then tm.map Prod.fst
      else tm.map Prod.fst ++ [tag] := by
  simp only [stepQuestionMetrics] at h
  cases hfind : findTagContributors tag tcs with
  | none => rw [hfind] at h; cases h
  | some tc =>
    rw [hfind] at h
    simp only [Option.some.injEq] at h
    subst h
    exact setTagMetrics_keys tag _ tm

/-- A successful answer-phase step never changes the key sequence. -/
theorem stepAnswerMetrics_keys {a : Answer} {tm tm₂ : TagMetricsTable} {tag : Tag}
    (h : stepAnswerMetrics a tm tag = some tm₂) :
    tm₂.map Prod.fst = tm.map Prod.fst := by
  simp only [stepAnswerMetrics] at h
  cases hl : lookupTagMetrics tag tm with
  | none => rw [hl] at h; cases h
  | some m =>
    rw [hl] at h
    simp only [Option.some.injEq] at h
    subst h
    rw [setTagMetrics_keys, if_pos (lookupTagMetrics_mem_keys hl)]

theorem collectFirst_nil (acc : List Tag) : collectFirst acc [] = acc := rfl

theorem collectFirst_append (l₁ l₂ : List Tag) :
    ∀ acc, collectFirst acc (l₁ ++ l₂) = collectFirst (collectFirst acc l₁) l₂ := by
  induction l₁ with
  | nil => intro acc; rfl
  | cons t ts ih =>
    intro acc
    simp only [List.cons_append, collectFirst]
    split
    · exact ih acc
    · exact ih (acc ++ [t])

theorem mem_collectFirst {t : Tag} :
    ∀ {l acc : List Tag}, t ∈ collectFirst acc l ↔ t ∈ acc ∨ t ∈ l := by
  intro l
  induction l with
  | nil => intro acc; simp [collectFirst]
  | cons t₂ ts ih =>
    intro acc
    simp only [collectFirst]
    split
    · next hmem =>
      rw [ih]
      constructor
      · rintro (h | h)
        · exact Or.inl h
        · exact Or.inr (List.mem_cons_of_mem _ h)
      · rintro (h | h)
        · exact Or.inl h
        · rcases List.mem_cons.mp h with rfl | h₂
          · exact Or.inl hmem
          · exact Or.inr h₂
    · rw [ih]
      simp only [List.mem_append, List.mem_singleton, List.mem_cons]
      tauto

theorem nodup_collectFirst :
    ∀ {l acc : List Tag}, acc.Nodup → (collectFirst acc l).Nodup := by
  intro l
  induction l with
  | nil => intro acc h; exact h
  | cons t ts ih =>
    intro acc h
    simp only [collectFirst]
    split
    · exact ih h
    · next hmem => exact ih (by simp [List.nodup_append, h, hmem])

theorem mem_allTags {t : Tag} :
    ∀ {qs : List Question}, t ∈ allTags qs ↔ ∃ q ∈ qs, t ∈ q.tags := by
  intro qs
  induction qs with
  | nil => simp [allTags]
  | cons q qs ih =>
    simp only [allTags, List.mem_append, ih, List.mem_cons]
    constructor
    · rintro (h | ⟨q₂, hq₂, ht⟩)
      · exact ⟨q, Or.inl rfl, h⟩
      · exact ⟨q₂, Or.inr hq₂, ht⟩
    · rintro ⟨q₂, rfl | hq₂, ht⟩
      · exact Or.inl ht
      · exact Or.inr ⟨q₂, hq₂, ht⟩

/-- The key sequence produced by the per-tag question loop is the
first-occurrence extension of the starting key sequence. -/
theorem foldlO_stepQ_keys {tcs : List TagContributorSet} {q : Question} :
    ∀ {tags : List Tag} {tm tm₂ : TagMetricsTable},
      foldlO (stepQuestionMetrics tcs q) tm tags = some tm₂ →
      tm₂.map Prod.fst = collectFirst (tm.map Prod.fst) tags := by
  intro tags
  induction tags with
  | nil => intro tm tm₂ h; cases h; rfl
  | cons t ts ih =>
    intro tm tm₂ h
    rw [foldlO_cons] at h
    cases hstep : stepQuestionMetrics tcs q tm t with
    | none => rw [hstep] at h; cases h
    | some tm₁ =>
      rw [hstep] at h
      have hkeys := stepQuestionMetrics_keys hstep
      simp only [collectFirst]
      split
      · next hmem =>
        rw [if_pos hmem] at hkeys
        rw [ih h, hkeys]
      · next hmem =>
        rw [if_neg hmem] at hkeys
        rw [ih h, hkeys]

/-- The key sequence after the question phase is the first-occurrence
subsequence of all tags scanned, extending the starting key sequence. -/
theorem questionsPhase_keys {tcs : List TagContributorSet} :
    ∀ {qs : List Question} {tm tm₂ : TagMetricsTable},
      foldlO (processQuestionMetrics tcs) tm qs = some tm₂ →
      tm₂.map Prod.fst = collectFirst (tm.map Prod.fst) (allTags qs) := by
  intro qs
  induction qs with
  | nil => intro tm tm₂ h; cases h; rfl
  | cons q qs ih =>
    intro tm tm₂ h
    rw [foldlO_cons] at h
    cases hstep : processQuestionMetrics tcs tm q with
    | none => rw [hstep] at h; cases h
    | some tm₁ =>
      rw [hstep] at h
      have h₁ : tm₁.map Prod.fst = collectFirst (tm.map Prod.fst) q.tags :=
        foldlO_stepQ_keys hstep
      rw [allTags, collectFirst_append, ih h, h₁]

/-- The answer phase never changes the key sequence. -/
theorem answersPhase_keys {questions : List Question} :
    ∀ {answers : List Answer} {tm tm₂ : TagMetricsTable},
      foldlO (processAnswerMetrics questions) tm answers = some tm₂ →
      tm₂.map Prod.fst = tm.map Prod.fst := by
  intro answers tm tm₂ h
  refine foldlO_inv (P := fun t => t.map Prod.fst = tm.map Prod.fst)
    (fun t a t₂ _ ht hstep => ?_) rfl h
  unfold processAnswerMetrics at hstep
  cases hfq : find_question a.question_id questions with
  | none => rw [hfq] at hstep; cases hstep
  | some q =>
    rw [hfq] at hstep
    have hpres : t₂.map Prod.fst = t.map Prod.fst := by
      refine foldlO_inv (P := fun s => s.map Prod.fst = t.map Prod.fst)
        (fun s tg s₂ _ hs h₂ => ?_) rfl hstep
      show s₂.map Prod.fst = t.map Prod.fst
      rw [stepAnswerMetrics_keys h₂]
      exact hs
    show t₂.map Prod.fst = tm.map Prod.fst
    rw [hpres]
    exact ht

/-- The keys of the accumulated metrics dictionary are exactly the tags of the
loaded questions, in first-discovery order. -/
theorem table_keys_firstEncounter {questions : List Question}
    {answers : List Answer} {tcs : List TagContributorSet} {table : TagMetricsTable}
    (h : tagMetricsTable questions answers tcs = some table) :
    table.map Prod.fst = collectFirst [] (allTags questions) := by
  unfold tagMetricsTable at h
  cases hq : foldlO (processQuestionMetrics tcs) [] questions with
  | none => rw [hq] at h; cases h
  | some tm =>
    rw [hq] at h
    rw [answersPhase_keys h, questionsPhase_keys hq]
    rfl

/-! ### The unique_contributors field -/

theorem stepQuestionMetrics_unique {tcs : List TagContributorSet} {q : Question}
    {tm tm₂ : TagMetricsTable} {tag : Tag}
    (hP : uniqueFromContributors tcs tm)
    (h : stepQuestionMetrics tcs q tm tag = some tm₂) :
    uniqueFromContributors tcs tm₂ := by
  simp only [stepQuestionMetrics] at h
  cases hfind : findTagContributors tag tcs with
  | none => rw [hfind] at h; cases h
  | some tc =>
    rw [hfind] at h
    simp only [Option.some.injEq] at h
    subst h
    intro p hp
    rcases mem_setTagMetrics hp with rfl | hp₂
    · exact ⟨tc, hfind, rfl⟩
    · exact hP p hp₂

theorem stepAnswerMetrics_unique {tcs : List TagContributorSet} {a : Answer}
    {tm tm₂ : TagMetricsTable} {tag : Tag}
    (hP : uniqueFromContributors tcs tm)
    (h : stepAnswerMetrics a tm tag = some tm₂) :
    uniqueFromContributors tcs tm₂ := by
  simp only [stepAnswerMetrics] at h
  cases hl : lookupTagMetrics tag tm with
  | none => rw [hl] at h; cases h
  | some m =>
    rw [hl] at h
    simp only [Option.some.injEq] at h
    subst h
    intro p hp
    rcases mem_setTagMetrics hp with rfl | hp₂
    · obtain ⟨tc, hfind, he⟩ := hP (tag, m) (lookupTagMetrics_mem hl)
      exact ⟨tc, hfind, by cases a.comments <;> exact he⟩
    · exact hP p hp₂

/-- Every entry of the final metrics dictionary carries the deduplicated
pooled-role size of its tag's contributor entry. -/
theorem table_unique_from {questions : List Question} {answers : List Answer}
    {tcs : List TagContributorSet} {table : TagMetricsTable}
    (h : tagMetricsTable questions answers tcs = some table) :
    uniqueFromContributors tcs table := by
  unfold tagMetricsTable at h
  cases hq : foldlO (processQuestionMetrics tcs) [] questions with
  | none => rw [hq] at h; cases h
  | some tm =>
    rw [hq] at h
    have h₁ : uniqueFromContributors tcs tm := by
      refine foldlO_inv (P := uniqueFromContributors tcs)
        (fun t q t₂ _ ht hstep => ?_) (fun p hp => absurd hp (List.not_mem_nil p)) hq
      unfold processQuestionMetrics at hstep
      exact foldlO_inv (P := uniqueFromContributors tcs)
        (fun s tg s₂ _ hs h₂ => stepQuestionMetrics_unique hs h₂) ht hstep
    refine foldlO_inv (P := uniqueFromContributors tcs)
      (fun t a t₂ _ ht hstep => ?_) h₁ h
    unfold processAnswerMetrics at hstep
    cases hfq : find_question a.question_id questions with
    | none => rw [hfq] at hstep; cases hstep
    | some q₂ =>
      rw [hfq] at hstep
      exact foldlO_inv (P := uniqueFromContributors tcs)
        (fun s tg s₂ _ hs h₂ => stepAnswerMetrics_unique hs h₂) ht hstep

/-! ### Sorting -/

instance : IsTotal (Tag × TagMetrics) viewDescOrder :=
  ⟨fun a b => (Nat.le_total b.2.view_count a.2.view_count).imp id id⟩

instance : IsTrans (Tag × TagMetrics) viewDescOrder :=
  ⟨fun _ _ _ hab hbc => Nat.le_trans hbc hab⟩

/-- Filtering for a fixed view count commutes with one ordered insertion: the
inserted element lands in front of the equal-view elements (stability of the
descending insertion), and the relative order of the rest is untouched. -/
theorem filter_orderedInsert_view (v : Nat) (a : Tag × TagMetrics) :
    ∀ l : List (Tag × TagMetrics),
      (List.orderedInsert viewDescOrder a l).filter
          (fun p => p.2.view_count == v) =
        if a.2.view_count = v then
          a :: l.filter (fun p => p.2.view_count == v)
        else l.filter (fun p => p.2.view_count == v) := by
  intro l
  induction l with
  | nil =>
    simp only [List.orderedInsert_nil]
    by_cases hav : a.2.view_count = v
    · simp [List.filter_cons, beq_iff_eq, hav]
    · simp [List.filter_cons, beq_iff_eq, hav]
  | cons b l ih =>
    simp only [List.orderedInsert]
    by_cases hr : viewDescOrder a b
    · rw [if_pos hr]
      by_cases hav : a.2.view_count = v
      · simp [List.filter_cons, beq_iff_eq, hav]
      · simp [List.filter_cons, beq_iff_eq, hav]
    · rw [if_neg hr]
      have hlt : a.2.view_count < b.2.view_count :=
        Nat.lt_of_not_le (fun hle => hr hle)
      by_cases hav : a.2.view_count = v
      · have hbv : ¬ b.2.view_count = v := by
          intro hbv
          rw [hav, hbv] at hlt
          exact Nat.lt_irrefl v hlt
        simp [List.filter_cons, beq_iff_eq, hbv, ih, hav]
      · by_cases hbv : b.2.view_count = v
        · simp [List.filter_cons, beq_iff_eq, hbv, ih, hav]
        · simp [List.filter_cons, beq_iff_eq, hbv, ih, hav]

/-- The stable descending insertion sort keeps the equal-view elements of the
input in their original relative order. -/
theorem filter_insertionSort_view (v : Nat) :
    ∀ l : List (Tag × TagMetrics),
      (List.insertionSort viewDescOrder l).filter (fun p => p.2.view_count == v) =
        l.filter (fun p => p.2.view_count == v) := by
  intro l
  induction l with
  | nil => rfl
  | cons a l ih =>
    simp only [List.insertionSort]
    rw [filter_orderedInsert_view]
    by_cases hav : a.2.view_count = v
    · simp [List.filter_cons, beq_iff_eq, hav, ih]
    · simp [List.filter_cons, beq_iff_eq, hav, ih]

/-- Python `len(set(l₁ + l₂ + l₃))`, modelled as deduplicated-concatenation
length, is the cardinality of the union of the three underlying finite sets. -/
theorem dedup_length_append_toFinset (l₁ l₂ l₃ : List UserId) :
    (l₁ ++ l₂ ++ l₃).dedup.length =
      (l₁.toFinset ∪ l₂.toFinset ∪ l₃.toFinset).card := by
  rw [← List.card_toFinset, List.toFinset_append, List.toFinset_append]

/-! ## Claim theorems -/

/-- C10: the create-on-first-use loop in the contributor index builder
terminates for every tag occurrence within two iterations (fuel 2 always
suffices, because the entry appended on a miss matches the searched tag), and
on exit the obtained index addresses an entry whose tag field equals the tag
being processed. -/
theorem tag_create_loop_terminates (tag : Tag) (tcs : List TagContributorSet) :
    ∃ i tcs₂, tagLoop 2 tag tcs = some (i, tcs₂) ∧
      ∃ tc, tcs₂.get? i = some tc ∧ tc.tag = tag := by
  obtain ⟨i, tcs₂, h⟩ := tagLoop_total tag tcs
  obtain ⟨hfind, _⟩ := tagLoop_spec h
  obtain ⟨tc, hget, htag⟩ := findTagIndex_some hfind
  exact ⟨i, tcs₂, h, tc, hget, htag⟩

/-- C2: when some answer's `question_id` matches no loaded question, both the
contributor-list construction and the tag-report aggregation raise an error
(return `none`, modelling the uncaught Python exception) rather than silently
skipping the orphan answer. -/
theorem orphan_answer_raises (questions : List Question) (answers : List Answer)
    (a : Answer) (ha : a ∈ answers)
    (horph : ∀ q ∈ questions, q.question_id ≠ a.question_id) :
    create_contributor_lists questions answers = none ∧
      ∀ tcs, create_tag_report questions answers tcs = none := by
  have hfq : find_question a.question_id questions = none := find_question_eq_none horph
  have hfail : ∀ st, processAnswer questions st a = none := by
    intro st
    unfold processAnswer
    rw [hfq]
  have hfail₂ : ∀ tm, processAnswerMetrics questions tm a = none := by
    intro tm
    unfold processAnswerMetrics
    rw [hfq]
  constructor
  · unfold create_contributor_lists
    cases hq : foldlO processQuestion
        { tag_contributors := [], question_contributors := [],
          answer_contributors := [], comment_contributors := [] } questions with
    | none => rfl
    | some st => exact foldlO_none_of_mem ha hfail st
  · intro tcs
    unfold create_tag_report tagMetricsTable
    cases hq : foldlO (processQuestionMetrics tcs) [] questions with
    | none => rfl
    | some tm => simp [foldlO_none_of_mem ha hfail₂ tm]

/-- Witness for C2 at the specification's concrete scenario plus an answer
referencing question 999. -/
theorem orphan_answer_raises_witness :
    orphanAnswer ∈ [orphanAnswer] ∧
      (∀ q ∈ [sampleQ1, sampleQ2], q.question_id ≠ orphanAnswer.question_id) ∧
      create_contributor_lists [sampleQ1, sampleQ2] [orphanAnswer] = none ∧
      ∀ tcs, create_tag_report [sampleQ1, sampleQ2] [orphanAnswer] tcs = none := by
  refine ⟨List.mem_singleton.mpr rfl, by decide, ?_⟩
  exact orphan_answer_raises [sampleQ1, sampleQ2] [orphanAnswer] orphanAnswer
    (List.mem_singleton.mpr rfl) (by decide)

/-- C7: a record whose comment list is absent contributes zero to the per-tag
comment counters: the question-phase step leaves `question_comments` unchanged
while still accumulating the other question counters, and the answer-phase
step leaves `answer_comments` unchanged while still accumulating the other
answer counters; neither step fails on the absent list. -/
theorem missing_comments_zero
    (tcs : List TagContributorSet) (q : Question) (a : Answer)
    (tm tm₂ tm₃ tm₄ : TagMetricsTable) (tag : Tag)
    (hq : q.comments = none) (ha : a.comments = none)
    (hstep : stepQuestionMetrics tcs q tm tag = some tm₂)
    (hstep₂ : stepAnswerMetrics a tm₃ tag = some tm₄) :
    (∃ m₂, lookupTagMetrics tag tm₂ = some m₂ ∧
      m₂.question_comments =
        (match lookupTagMetrics tag tm with
          | some m => m.question_comments
          | none => 0) ∧
      m₂.question_count =
        (match lookupTagMetrics tag tm with
          | some m => m.question_count
          | none => 0) + 1 ∧
      m₂.view_count =
        (match lookupTagMetrics tag tm with
          | some m => m.view_count
          | none => 0) + q.view_count ∧
      m₂.question_upvotes =
        (match lookupTagMetrics tag tm with
          | some m => m.question_upvotes
          | none => 0) + q.up_vote_count) ∧
    (∀ m₃, lookupTagMetrics tag tm₃ = some m₃ →
      ∃ m₄, lookupTagMetrics tag tm₄ = some m₄ ∧
        m₄.answer_comments = m₃.answer_comments ∧
        m₄.answer_count = m₃.answer_count + 1 ∧
        m₄.answer_upvotes = m₃.answer_upvotes + a.up_vote_count ∧
        m₄.answer_downvotes = m₃.answer_downvotes + a.down_vote_count) := by
  constructor
  · simp only [stepQuestionMetrics, hq] at hstep
    cases hfind : findTagContributors tag tcs with
    | none => rw [hfind] at hstep; cases hstep
    | some tc =>
      rw [hfind] at hstep
      simp only [Option.some.injEq] at hstep
      subst hstep
      refine ⟨_, lookup_setTagMetrics _ _ _, ?_⟩
      cases hl : lookupTagMetrics tag tm <;>
        by_cases hna : q.answer_count = 0 <;> cases hia : q.is_answered <;>
        simp [hna, hia, initTagMetrics]
  · intro m₃ hm₃
    simp only [stepAnswerMetrics, ha, hm₃, Option.some.injEq] at hstep₂
    subst hstep₂
    exact ⟨_, lookup_setTagMetrics _ _ _, rfl, rfl, rfl, rfl⟩

/-- C8: in the mapping returned by the contributor index builder, every role
collection — the three global lists and each tag's asker, answerer and
commenter lists — contains each user identifier at most once; and the sole
insertion primitive `add_user_to_list` preserves duplicate-freedom on every
insertion. -/
theorem role_sets_nodup (questions : List Question) (answers : List Answer)
    (st : CLState) (h : create_contributor_lists questions answers = some st) :
    st.question_contributors.Nodup ∧ st.answer_contributors.Nodup ∧
      st.comment_contributors.Nodup ∧
      (∀ tc ∈ st.tag_contributors,
        tc.askers.Nodup ∧ tc.answerers.Nodup ∧ tc.commenters.Nodup) ∧
      ∀ (u : UserId) (l : List UserId), l.Nodup → (add_user_to_list u l).Nodup := by
  obtain ⟨h₁, h₂, h₃, h₄⟩ := clNodup_create h
  exact ⟨h₁, h₂, h₃, h₄, fun u l hl => nodup_add_user_to_list u hl⟩

/-- Witness for C8 at the specification's concrete scenario. -/
theorem role_sets_nodup_witness :
    create_contributor_lists [sampleQ1, sampleQ2] [sampleA1] = some sampleCL ∧
      (sampleCL.question_contributors.Nodup ∧ sampleCL.answer_contributors.Nodup ∧
        sampleCL.comment_contributors.Nodup ∧
        (∀ tc ∈ sampleCL.tag_contributors,
          tc.askers.Nodup ∧ tc.answerers.Nodup ∧ tc.commenters.Nodup) ∧
        ∀ (u : UserId) (l : List UserId), l.Nodup → (add_user_to_list u l).Nodup) := by
  refine ⟨by decide, ?_⟩
  exact role_sets_nodup [sampleQ1, sampleQ2] [sampleA1] sampleCL (by decide)

/-- C6: owner resolution returns the owner's `user_id` when the owner
reference is present with an id, returns the `"unknown"` sentinel when the
owner reference is absent, and never fails (every input resolves to either a
known id or the sentinel); moreover each question's resolved asker — in
particular `"unknown"` for an ownerless question — appears exactly once in
the asker set of each of the question's tags. -/
theorem missing_owner_unknown_sentinel (questions : List Question)
    (answers : List Answer) (st : CLState) (q : Question) (tag : Tag)
    (h : create_contributor_lists questions answers = some st)
    (hq : q ∈ questions) (htag : tag ∈ q.tags) :
    (∀ i, validate_user_id (some { user_id := some i }) = UserId.known i) ∧
      validate_user_id none = UserId.unknown ∧
      (∀ o, (∃ i, validate_user_id o = UserId.known i) ∨
        validate_user_id o = UserId.unknown) ∧
      ∃ tc, findTagContributors tag st.tag_contributors = some tc ∧
        tc.askers.count (validate_user_id q.owner) = 1 := by
  refine ⟨fun i => rfl, rfl, ?_, ?_⟩
  · intro o
    cases o with
    | none => exact Or.inr rfl
    | some ow =>
      cases how : ow.user_id with
      | none => right; simp [validate_user_id, how]
      | some i => exact Or.inl ⟨i, by simp [validate_user_id, how]⟩
  · obtain ⟨tc, hfind, hmem⟩ := asker_recorded_of_create h hq htag
    obtain ⟨_, _, _, h₄⟩ := clNodup_create h
    obtain ⟨hnd, _, _⟩ := h₄ tc (findTC_mem hfind)
    exact ⟨tc, hfind, List.count_eq_one_of_mem hnd hmem⟩

/-- Witness for C6 at a question whose owner key is absent. -/
theorem missing_owner_unknown_sentinel_witness :
    create_contributor_lists [noOwnerQuestion] [] = some noOwnerCL ∧
      noOwnerQuestion ∈ [noOwnerQuestion] ∧ "x" ∈ noOwnerQuestion.tags ∧
      ((∀ i, validate_user_id (some { user_id := some i }) = UserId.known i) ∧
        validate_user_id none = UserId.unknown ∧
        (∀ o, (∃ i, validate_user_id o = UserId.known i) ∨
          validate_user_id o = UserId.unknown) ∧
        ∃ tc, findTagContributors "x" noOwnerCL.tag_contributors = some tc ∧
          tc.askers.count (validate_user_id noOwnerQuestion.owner) = 1) := by
  refine ⟨by decide, by decide, by decide, ?_⟩
  exact missing_owner_unknown_sentinel [noOwnerQuestion] [] noOwnerCL
    noOwnerQuestion "x" (by decide) (by decide) (by decide)

/-- C1 (amended): the global contributor count printed as 'Total users who
asked OR answered' equals the cardinality of the union of the asker, answerer
AND commenter sets produced by the contributor index builder: the pooling at
usage_report.py:104-105 includes `comment_contributors`, despite the printed
label and the claim's exclusion of commenters. -/
theorem contributor_count_union_all_roles (questions : List Question)
    (answers : List Answer) (st : CLState)
    (h : create_contributor_lists questions answers = some st) :
    contributor_count questions answers =
      some ((st.question_contributors.toFinset ∪ st.answer_contributors.toFinset ∪
        st.comment_contributors.toFinset).card) := by
  unfold contributor_count
  rw [h]
  simp only [Option.map_some', all_unique_contributors, Option.some.injEq]
  rw [dedup_length_append_toFinset]

/-- Counterexample to C1 as stated: on one question asked by user 1 with a
comment by user 2 and no answers, the code prints contributor count 2, while
the cardinality of the union of the asker and answerer sets is 1. -/
theorem contributor_count_counterexample :
    create_contributor_lists [cexQuestion] [] = some cexCL ∧
      contributor_count [cexQuestion] [] = some 2 ∧
      (cexCL.question_contributors.toFinset ∪
        cexCL.answer_contributors.toFinset).card = 1 := by
  refine ⟨by decide, by decide, by decide⟩

/-- Witness for the amended C1 at the commenter-only input. -/
theorem contributor_count_union_all_roles_witness :
    create_contributor_lists [cexQuestion] [] = some cexCL ∧
      contributor_count [cexQuestion] [] =
        some ((cexCL.question_contributors.toFinset ∪
          cexCL.answer_contributors.toFinset ∪
          cexCL.comment_contributors.toFinset).card) := by
  refine ⟨by decide, ?_⟩
  exact contributor_count_union_all_roles [cexQuestion] [] cexCL (by decide)

/-- C9: the aggregation pipeline leaves its input snapshots unchanged: after a
successful run the questions, answers and users collections of the program
state equal the ones before; only the freshly created output structures are
replaced. -/
theorem aggregation_preserves_inputs (rs rs₂ : ReportState)
    (h : runAggregation rs = some rs₂) :
    rs₂.questions = rs.questions ∧ rs₂.answers = rs.answers ∧
      rs₂.users = rs.users := by
  unfold runAggregation at h
  split at h
  · cases h
  · split at h
    · cases h
    · cases h
      exact ⟨rfl, rfl, rfl⟩

/-- Witness for C9 at the specification's concrete scenario. -/
theorem aggregation_preserves_inputs_witness :
    runAggregation sampleReport = some sampleReportOut ∧
      sampleReportOut.questions = sampleReport.questions ∧
      sampleReportOut.answers = sampleReport.answers ∧
      sampleReportOut.users = sampleReport.users := by
  refine ⟨by decide, ?_⟩
  exact aggregation_preserves_inputs sampleReport sampleReportOut (by decide)

/-- C3: for every tag row of the final tag-metrics table, the
`unique_contributors` field equals the cardinality of the set union of that
tag's asker, answerer and commenter identifier collections; a user appearing
in more than one role under the tag is counted once, not summed per role. -/
theorem unique_contributors_union_card (questions : List Question)
    (answers : List Answer) (tcs : List TagContributorSet) (rows : TagMetricsTable)
    (t : Tag) (m : TagMetrics)
    (h : create_tag_report questions answers tcs = some rows)
    (hm : (t, m) ∈ rows) :
    ∃ tc, findTagContributors t tcs = some tc ∧
      m.unique_contributors =
        (tc.askers.toFinset ∪ tc.answerers.toFinset ∪ tc.commenters.toFinset).card := by
  unfold create_tag_report at h
  cases ht : tagMetricsTable questions answers tcs with
  | none => rw [ht] at h; cases h
  | some table =>
    rw [ht] at h
    simp only [Option.map_some', Option.some.injEq] at h
    subst h
    have hmem : (t, m) ∈ table :=
      (List.perm_insertionSort viewDescOrder table).mem_iff.mp hm
    obtain ⟨tc, hfind, he⟩ := table_unique_from ht (t, m) hmem
    exact ⟨tc, hfind, he.trans (dedup_length_append_toFinset _ _ _)⟩

/-- Witness for C3 at tag `"a"` of the specification's concrete scenario. -/
theorem unique_contributors_union_card_witness :
    create_tag_report [sampleQ1, sampleQ2] [sampleA1] sampleCL.tag_contributors =
        some sampleTable ∧
      ("a", sampleMetricsA) ∈ sampleTable ∧
      ∃ tc, findTagContributors "a" sampleCL.tag_contributors = some tc ∧
        sampleMetricsA.unique_contributors =
          (tc.askers.toFinset ∪ tc.answerers.toFinset ∪
            tc.commenters.toFinset).card := by
  refine ⟨by decide, by decide, ?_⟩
  exact unique_contributors_union_card [sampleQ1, sampleQ2] [sampleA1]
    sampleCL.tag_contributors sampleTable "a" sampleMetricsA (by decide) (by decide)

/-- C4: the final row sequence is sorted by view count descending; rows of
equal view count keep the relative order of the accumulated dictionary
(stable tie-breaking), whose key order is exactly the order in which tags
were first encountered while scanning the questions. -/
theorem tag_report_sorted_stable (questions : List Question)
    (answers : List Answer) (tcs : List TagContributorSet) (table : TagMetricsTable)
    (ht : tagMetricsTable questions answers tcs = some table) :
    ∃ rows, create_tag_report questions answers tcs = some rows ∧
      List.Sorted viewDescOrder rows ∧
      (∀ v : Nat, rows.filter (fun p => p.2.view_count == v) =
        table.filter (fun p => p.2.view_count == v)) ∧
      table.map Prod.fst = collectFirst [] (allTags questions) := by
  refine ⟨tags_sorted_by_view_count table, ?_, ?_, ?_, ?_⟩
  · unfold create_tag_report
    rw [ht]
    rfl
  · exact List.sorted_insertionSort viewDescOrder table
  · intro v
    exact filter_insertionSort_view v table
  · exact table_keys_firstEncounter ht

/-- Witness for C4 at the specification's concrete scenario. -/
theorem tag_report_sorted_stable_witness :
    tagMetricsTable [sampleQ1, sampleQ2] [sampleA1] sampleCL.tag_contributors =
        some sampleTable ∧
      ∃ rows, create_tag_report [sampleQ1, sampleQ2] [sampleA1]
          sampleCL.tag_contributors = some rows ∧
        List.Sorted viewDescOrder rows ∧
        (∀ v : Nat, rows.filter (fun p => p.2.view_count == v) =
          sampleTable.filter (fun p => p.2.view_count == v)) ∧
        sampleTable.map Prod.fst =
          collectFirst [] (allTags [sampleQ1, sampleQ2]) := by
  refine ⟨by decide, ?_⟩
  exact tag_report_sorted_stable [sampleQ1, sampleQ2] [sampleA1]
    sampleCL.tag_contributors sampleTable (by decide)

/-- C5: a tag string has an entry in the final tag-metrics table iff it
appears in the tag list of at least one loaded question, and the table
contains exactly one entry per such tag (duplicate-free keys). -/
theorem tag_table_exactly_one_entry (questions : List Question)
    (answers : List Answer) (tcs : List TagContributorSet) (rows : TagMetricsTable)
    (h : create_tag_report questions answers tcs = some rows) :
    (∀ t : Tag, (∃ q ∈ questions, t ∈ q.tags) ↔ t ∈ rows.map Prod.fst) ∧
      (rows.map Prod.fst).Nodup := by
  unfold create_tag_report at h
  cases ht : tagMetricsTable questions answers tcs with
  | none => rw [ht] at h; cases h
  | some table =>
    rw [ht] at h
    simp only [Option.map_some', Option.some.injEq] at h
    subst h
    have hperm : List.Perm ((tags_sorted_by_view_count table).map Prod.fst)
        (table.map Prod.fst) :=
      (List.perm_insertionSort viewDescOrder table).map Prod.fst
    have hkeys := table_keys_firstEncounter ht
    constructor
    · intro t
      rw [hperm.mem_iff, hkeys, mem_collectFirst, mem_allTags]
      simp
    · have h₂ : (table.map Prod.fst).Nodup := by
        rw [hkeys]
        exact nodup_collectFirst List.nodup_nil
      exact hperm.nodup_iff.mpr h₂

/-- Witness for C5 at the specification's concrete scenario. -/
theorem tag_table_exactly_one_entry_witness :
    create_tag_report [sampleQ1, sampleQ2] [sampleA1] sampleCL.tag_contributors =
        some sampleTable ∧
      ((∀ t : Tag, (∃ q ∈ [sampleQ1, sampleQ2], t ∈ q.tags) ↔
          t ∈ sampleTable.map Prod.fst) ∧
        (sampleTable.map Prod.fst).Nodup) := by
  refine ⟨by decide, ?_⟩
  exact tag_table_exactly_one_entry [sampleQ1, sampleQ2] [sampleA1]
    sampleCL.tag_contributors sampleTable (by decide)

/-- Witness for C7: `sampleQ1` and `sampleA1` both lack comment lists. -/
theorem missing_comments_zero_witness :
    sampleQ1.comments = none ∧ sampleA1.comments = none ∧
      stepQuestionMetrics sampleCL.tag_contributors sampleQ1 [] "a" =
        some sampleStepQTable ∧
      stepAnswerMetrics sampleA1 sampleTable "a" = some sampleStepATable ∧
      ((∃ m₂, lookupTagMetrics "a" sampleStepQTable = some m₂ ∧
        m₂.question_comments =
          (match lookupTagMetrics "a" ([] : TagMetricsTable) with
            | some m => m.question_comments
            | none => 0) ∧
        m₂.question_count =
          (match lookupTagMetrics "a" ([] : TagMetricsTable) with
            | some m => m.question_count
            | none => 0) + 1 ∧
        m₂.view_count =
          (match lookupTagMetrics "a" ([] : TagMetricsTable) with
            | some m => m.view_count
            | none => 0) + sampleQ1.view_count ∧
        m₂.question_upvotes =
          (match lookupTagMetrics "a" ([] : TagMetricsTable) with
            | some m => m.question_upvotes
            | none => 0) + sampleQ1.up_vote_count) ∧
      (∀ m₃, lookupTagMetrics "a" sampleTable = some m₃ →
        ∃ m₄, lookupTagMetrics "a" sampleStepATable = some m₄ ∧
          m₄.answer_comments = m₃.answer_comments ∧
          m₄.answer_count = m₃.answer_count + 1 ∧
          m₄.answer_upvotes = m₃.answer_upvotes + sampleA1.up_vote_count ∧
          m₄.answer_downvotes = m₃.answer_downvotes + sampleA1.down_vote_count)) := by
  refine ⟨rfl, rfl, by decide, by decide, ?_⟩
  exact missing_comments_zero sampleCL.tag_contributors sampleQ1 sampleA1
    [] sampleStepQTable sampleTable sampleStepATable "a" rfl rfl (by decide) (by decide)

end UsageReport
